import Mathlib

attribute [local semireducible] Rat.add Rat.mul Rat.sub Rat.inv

/-!
Shallow embedding of the price-feed computation pipeline of `src/app.py`
(`remove_outliers_iqr`, lines 10-19, and `calculate_price_feed`,
lines 106-136), together with proofs settling the specification claims.

Modelling conventions:
* Prices and timestamps are rationals (`ℚ`); pandas floating-point
  arithmetic is modelled exactly.
* The DataFrame of transactions is a `List Txn`.
* `Series.quantile q` (pandas default linear interpolation) is `quantile`.
* `Series.median` is `median`.
* `Series.rolling(window, min_periods=window, center=True).mean()` followed
  by `dropna` is `rollingMeanRows`: pandas places the centred window for
  label `i` over rows `[i + 1 + offset - w, i + offset]` with
  `offset = (w - 1) / 2` (integer division) and, with
  `min_periods = window`, yields a value only for full windows.
* `calculate_price_feed` returns `none` where the Python raises: on an
  empty input list `df.sort_values('date')` raises `KeyError` (an empty
  frame has no `'date'` column, lines 108-109), and when every date group
  is filtered away `results_df['price_per_sqft']` raises `KeyError` on the
  empty results frame (lines 129-131).
-/

/-- A transaction record as built by `get_zillow_data` (src/app.py lines
85-91): `date` is the sale timestamp in seconds, at full precision — the
code never truncates it to a calendar day — and `price_per_sqft` is the
price divided by living area.  The fields `address`, `price` and `sqft`
are carried through unused and omitted from the model. -/
structure Txn where
  date : ℚ
  price_per_sqft : ℚ
deriving DecidableEq

/-- One row of the intermediate `results` list (src/app.py lines 123-127). -/
structure DailyRow where
  date : ℚ
  price_per_sqft : ℚ
  transaction_count : ℕ
deriving DecidableEq

/-- One row of the returned frame (src/app.py line 136): `price_per_sqft`
holds the smoothed value (line 132), `price_per_sqft_raw` the daily median
it was copied from (line 131). -/
structure OutRow where
  date : ℚ
  price_per_sqft : ℚ
  transaction_count : ℕ
  price_per_sqft_raw : ℚ
deriving DecidableEq

/-- The calendar day a timestamp falls on (86400 seconds per day).  Used
only to state day-level claims; the code itself never truncates. -/
def calendarDay (t : ℚ) : ℤ := ⌊t / 86400⌋

/-- Pandas `Series.quantile q` with the default linear interpolation
between order statistics: with the values sorted ascending as `s` and
`h = q * (n - 1)`, the result is `s⌊h⌋ + (h - ⌊h⌋) * (s⌈h⌉ - s⌊h⌋)`
(src/app.py lines 12-13). -/
def quantile (l : List ℚ) (q : ℚ) : ℚ :=
  let s := l.insertionSort (· ≤ ·)
  let h : ℚ := q * ((l.length : ℚ) - 1)
  let a := s.getD (⌊h⌋.toNat) 0
  let b := s.getD (⌈h⌉.toNat) 0
  a + (h - ⌊h⌋) * (b - a)

/-- Pandas `Series.median`: middle order statistic, averaging the two middle
values for even length (src/app.py line 121). -/
def median (l : List ℚ) : ℚ :=
  let s := l.insertionSort (· ≤ ·)
  let n := l.length
  if n % 2 = 1 then s.getD (n / 2) 0
  else (s.getD (n / 2 - 1) 0 + s.getD (n / 2) 0) / 2

/-- Python `remove_outliers_iqr` (src/app.py lines 10-19): keep exactly the rows
whose `price_per_sqft` lies in `[Q1 - m*IQR, Q3 + m*IQR]`, both ends
inclusive. -/
def remove_outliers_iqr (df : List Txn) (multiplier : ℚ) : List Txn :=
  let Q1 := quantile (df.map (·.price_per_sqft)) (1/4)
  let Q3 := quantile (df.map (·.price_per_sqft)) (3/4)
  let IQR := Q3 - Q1
  let lower_bound := Q1 - multiplier * IQR
  let upper_bound := Q3 + multiplier * IQR
  df.filter (fun r =>
    decide (lower_bound ≤ r.price_per_sqft) &&
    decide (r.price_per_sqft ≤ upper_bound))

/-- Python `sorted(df['date'].unique())` (src/app.py line 112): the distinct
`date` values — full-precision timestamps, not calendar days — sorted
ascending. -/
def unique_dates (data : List Txn) : List ℚ :=
  List.insertionSort (· ≤ ·) (data.map (·.date)).dedup

/-- The body of the per-date loop (src/app.py lines 114-127): the day
group is every record whose `date` equals the group key exactly
(`df[df['date'] == date]`, line 115); after outlier filtering a row with
the group's median and size is emitted, unless the filtered group is
empty, in which case the date is dropped. -/
def dailyRow (data : List Txn) (iqr_multiplier : ℚ) (date : ℚ) : Option DailyRow :=
  let day_data := data.filter (fun r => decide (r.date = date))
  if 0 < day_data.length then
    let clean_data := remove_outliers_iqr day_data iqr_multiplier
    if 0 < clean_data.length then
      some ⟨date, median (clean_data.map (·.price_per_sqft)), clean_data.length⟩
    else none
  else none

/-- The full `results` list (src/app.py lines 111-127). -/
def dailyRows (data : List Txn) (iqr_multiplier : ℚ) : List DailyRow :=
  (unique_dates data).filterMap (dailyRow data iqr_multiplier)

/-- Lines 131-136 of src/app.py: the centred rolling mean with
`min_periods = window_size` followed by `dropna`.  pandas centres the
window for label `i` over rows `[i + 1 + offset - w, i + offset]` with
`offset = (w - 1) / 2`; with `min_periods = w` a label gets a value
exactly when that whole range lies inside `[0, n)`, and `dropna` keeps
exactly those labels. -/
def rollingMeanRows (rows : List DailyRow) (window_size : ℕ) : List OutRow :=
  let n := rows.length
  let offset := (window_size - 1) / 2
  (List.range n).filterMap (fun i =>
    if window_size ≤ i + 1 + offset ∧ i + offset < n then
      let windowVals :=
        ((rows.drop (i + 1 + offset - window_size)).take window_size).map
          (·.price_per_sqft)
      let row := rows.getD i ⟨0, 0, 0⟩
      some ⟨row.date, windowVals.sum / (window_size : ℚ),
            row.transaction_count, row.price_per_sqft⟩
    else none)

/-- Python `calculate_price_feed` (src/app.py lines 106-136).  `none` models an
uncaught `KeyError`: on empty input `df.sort_values('date')` raises
(lines 108-109), and when every date group filters to empty
`results_df['price_per_sqft']` raises on the empty results frame
(lines 129-131).  Sorting the frame by date (line 109) does not change
any group's multiset of values and is absorbed into the grouping. -/
def calculate_price_feed (data : List Txn) (window_size : ℕ)
    (iqr_multiplier : ℚ) : Option (List OutRow) :=
  if data.length = 0 then none
  else
    let rows := dailyRows data iqr_multiplier
    if rows.length = 0 then none
    else some (rollingMeanRows rows window_size)

/-- Scenario A input: five distinct dates with per-day `price_per_sqft`
values `{10,10,10}, {20}, {12,12,12}, {8,100,9}, {15,15}`. -/
def scenarioA : List Txn :=
  [⟨1, 10⟩, ⟨1, 10⟩, ⟨1, 10⟩, ⟨2, 20⟩, ⟨3, 12⟩, ⟨3, 12⟩, ⟨3, 12⟩,
   ⟨4, 8⟩, ⟨4, 100⟩, ⟨4, 9⟩, ⟨5, 15⟩, ⟨5, 15⟩]

/-! ### Basic characterisations -/

theorem mem_remove_outliers_iqr {df : List Txn} {m : ℚ} {r : Txn} :
    r ∈ remove_outliers_iqr df m ↔
      r ∈ df ∧
        quantile (df.map (·.price_per_sqft)) (1/4)
            - m * (quantile (df.map (·.price_per_sqft)) (3/4)
                - quantile (df.map (·.price_per_sqft)) (1/4))
          ≤ r.price_per_sqft ∧
        r.price_per_sqft
          ≤ quantile (df.map (·.price_per_sqft)) (3/4)
            + m * (quantile (df.map (·.price_per_sqft)) (3/4)
                - quantile (df.map (·.price_per_sqft)) (1/4)) := by
  simp [remove_outliers_iqr, List.mem_filter, and_assoc]

theorem sorted_getD_le {s : List ℚ} (hs : s.Sorted (· ≤ ·)) {i j : ℕ}
    (hij : i ≤ j) (hj : j < s.length) : s.getD i 0 ≤ s.getD j 0 := by
  have hi : i < s.length := lt_of_le_of_lt hij hj
  rw [List.getD_eq_get _ _ hi, List.getD_eq_get _ _ hj]
  exact hs.rel_get_of_le (by exact hij)

/-- The linear interpolation `a + (h - ⌊h⌋) * (b - a)` between consecutive
order statistics lies between them. -/
theorem interp_bounds {s : List ℚ} (hs : s.Sorted (· ≤ ·)) {h : ℚ} (h0 : 0 ≤ h)
    (hub : ⌈h⌉.toNat < s.length) :
    s.getD ⌊h⌋.toNat 0
        ≤ s.getD ⌊h⌋.toNat 0
            + (h - ⌊h⌋) * (s.getD ⌈h⌉.toNat 0 - s.getD ⌊h⌋.toNat 0) ∧
      s.getD ⌊h⌋.toNat 0
          + (h - ⌊h⌋) * (s.getD ⌈h⌉.toNat 0 - s.getD ⌊h⌋.toNat 0)
        ≤ s.getD ⌈h⌉.toNat 0 := by
  have hle : ⌊h⌋.toNat ≤ ⌈h⌉.toNat := Int.toNat_le_toNat (Int.floor_le_ceil h)
  have hab : s.getD ⌊h⌋.toNat 0 ≤ s.getD ⌈h⌉.toNat 0 := sorted_getD_le hs hle hub
  have hfl : (0:ℤ) ≤ ⌊h⌋ := Int.floor_nonneg.mpr h0
  have hg0 : 0 ≤ h - ⌊h⌋ := by
    have := Int.floor_le h
    linarith
  have hg1 : h - ⌊h⌋ ≤ 1 := by
    have := Int.sub_one_lt_floor h
    linarith
  constructor
  · nlinarith
  · nlinarith

theorem ceil_index_lt {l : List ℚ} {q : ℚ} (h0 : 0 ≤ q) (h1 : q ≤ 1)
    (hne : l ≠ []) : (⌈q * ((l.length : ℚ) - 1)⌉).toNat < l.length := by
  have hn : 1 ≤ l.length := List.length_pos.mpr hne
  have hnq : (1:ℚ) ≤ (l.length : ℚ) := by exact_mod_cast hn
  have h2 : q * ((l.length : ℚ) - 1) ≤ (l.length : ℚ) - 1 := by nlinarith
  have h3 : ⌈q * ((l.length : ℚ) - 1)⌉ ≤ (l.length : ℤ) - 1 := by
    apply Int.ceil_le.mpr
    push_cast
    linarith
  omega

/-- The value `quantile l q` lies between the order statistics at `⌊h⌋` and `⌈h⌉`. -/
theorem quantile_between (l : List ℚ) {q : ℚ} (h0 : 0 ≤ q) (h1 : q ≤ 1)
    (hne : l ≠ []) :
    (l.insertionSort (· ≤ ·)).getD (⌊q * ((l.length : ℚ) - 1)⌋).toNat 0
        ≤ quantile l q ∧
      quantile l q
        ≤ (l.insertionSort (· ≤ ·)).getD (⌈q * ((l.length : ℚ) - 1)⌉).toNat 0 := by
  have hn : 1 ≤ l.length := List.length_pos.mpr hne
  have hnq : (1:ℚ) ≤ (l.length : ℚ) := by exact_mod_cast hn
  have h0' : 0 ≤ q * ((l.length : ℚ) - 1) := mul_nonneg h0 (by linarith)
  have hlen : (l.insertionSort (· ≤ ·)).length = l.length :=
    (List.perm_insertionSort _ l).length_eq
  have hceil : (⌈q * ((l.length : ℚ) - 1)⌉).toNat < (l.insertionSort (· ≤ ·)).length := by
    rw [hlen]
    exact ceil_index_lt h0 h1 hne
  exact interp_bounds (List.sorted_insertionSort _ l) h0' hceil

/-- For `n = 1` or `n ≥ 3` the interpolation cells of the 25th and 75th
percentiles do not overlap: `⌈h₁⌉ ≤ ⌊h₃⌋`. -/
theorem ceil_q1_le_floor_q3 {n : ℕ} (h1 : 1 ≤ n) (h2 : n ≠ 2) :
    ⌈(1/4 : ℚ) * ((n : ℚ) - 1)⌉ ≤ ⌊(3/4 : ℚ) * ((n : ℚ) - 1)⌋ := by
  rcases eq_or_lt_of_le h1 with rfl | h3
  · norm_num
  · have hn3 : 3 ≤ n := by omega
    have hn3q : (3:ℚ) ≤ (n : ℚ) := by exact_mod_cast hn3
    have hfl := Int.floor_le ((1/4 : ℚ) * ((n : ℚ) - 1))
    calc ⌈(1/4 : ℚ) * ((n : ℚ) - 1)⌉
        ≤ ⌊(1/4 : ℚ) * ((n : ℚ) - 1)⌋ + 1 := Int.ceil_le_floor_add_one _
      _ ≤ ⌊(3/4 : ℚ) * ((n : ℚ) - 1)⌋ := by
          apply Int.le_floor.mpr
          push_cast
          linarith

/-- The quartiles satisfy `Q1 ≤ Q3`, hence `IQR ≥ 0`, for every list of values. -/
theorem quantile_q1_le_q3 (l : List ℚ) : quantile l (1/4) ≤ quantile l (3/4) := by
  rcases eq_or_ne l [] with rfl | hne
  · simp [quantile]
  by_cases h2 : l.length = 2
  · have hlen : (l.insertionSort (· ≤ ·)).length = l.length :=
      (List.perm_insertionSort _ l).length_eq
    have hab : (l.insertionSort (· ≤ ·)).getD 0 0 ≤ (l.insertionSort (· ≤ ·)).getD 1 0 :=
      sorted_getD_le (List.sorted_insertionSort _ l) (by omega) (by omega)
    have hcast : ((l.length : ℚ) - 1) = 1 := by rw [h2]; norm_num
    simp only [quantile, hcast]
    rw [show ((1:ℚ)/4 * 1) = 1/4 by norm_num, show ((3:ℚ)/4 * 1) = 3/4 by norm_num,
      show (⌊(1/4 : ℚ)⌋) = 0 by decide, show (⌈(1/4 : ℚ)⌉) = 1 by decide,
      show (⌊(3/4 : ℚ)⌋) = 0 by decide, show (⌈(3/4 : ℚ)⌉) = 1 by decide]
    push_cast
    linarith
  · have h1n : 1 ≤ l.length := List.length_pos.mpr hne
    have hb1 := quantile_between l (q := 1/4) (by norm_num) (by norm_num) hne
    have hb3 := quantile_between l (q := 3/4) (by norm_num) (by norm_num) hne
    have hcf := ceil_q1_le_floor_q3 h1n h2
    have hlen : (l.insertionSort (· ≤ ·)).length = l.length :=
      (List.perm_insertionSort _ l).length_eq
    have hfloor3 : (⌊(3/4 : ℚ) * ((l.length : ℚ) - 1)⌋).toNat < (l.insertionSort (· ≤ ·)).length := by
      have hc3 : (⌈(3/4 : ℚ) * ((l.length : ℚ) - 1)⌉).toNat < l.length :=
        ceil_index_lt (by norm_num) (by norm_num) hne
      have := Int.floor_le_ceil ((3/4 : ℚ) * ((l.length : ℚ) - 1))
      omega
    have hmid : (l.insertionSort (· ≤ ·)).getD (⌈(1/4 : ℚ) * ((l.length : ℚ) - 1)⌉).toNat 0
        ≤ (l.insertionSort (· ≤ ·)).getD (⌊(3/4 : ℚ) * ((l.length : ℚ) - 1)⌋).toNat 0 :=
      sorted_getD_le (List.sorted_insertionSort _ l) (Int.toNat_le_toNat hcf) hfloor3
    linarith [hb1.2, hb3.1]

/-- Explicit interpolation formulas for the quartiles of a two-element
list. -/
theorem quantile_quarter_len_two {vals : List ℚ} (h2 : vals.length = 2) :
    quantile vals (1/4)
        = (vals.insertionSort (· ≤ ·)).getD 0 0
          + (1/4) * ((vals.insertionSort (· ≤ ·)).getD 1 0
              - (vals.insertionSort (· ≤ ·)).getD 0 0) ∧
      quantile vals (3/4)
        = (vals.insertionSort (· ≤ ·)).getD 0 0
          + (3/4) * ((vals.insertionSort (· ≤ ·)).getD 1 0
              - (vals.insertionSort (· ≤ ·)).getD 0 0) := by
  have hcast : ((vals.length : ℚ) - 1) = 1 := by rw [h2]; norm_num
  constructor
  · simp only [quantile, hcast]
    rw [show ((1:ℚ)/4 * 1) = 1/4 by norm_num,
      show (⌊(1/4 : ℚ)⌋) = 0 by decide, show (⌈(1/4 : ℚ)⌉) = 1 by decide]
    push_cast
    ring
  · simp only [quantile, hcast]
    rw [show ((3:ℚ)/4 * 1) = 3/4 by norm_num,
      show (⌊(3/4 : ℚ)⌋) = 0 by decide, show (⌈(3/4 : ℚ)⌉) = 1 by decide]
    push_cast
    ring

/-- For every multiplier `m ≥ 1/2` a non-empty list of values contains at
least one value inside the IQR band `[Q1 - m·IQR, Q3 + m·IQR]`. -/
theorem exists_val_in_band (vals : List ℚ) (hne : vals ≠ []) {m : ℚ}
    (hm : 1/2 ≤ m) :
    ∃ v ∈ vals,
      quantile vals (1/4) - m * (quantile vals (3/4) - quantile vals (1/4)) ≤ v ∧
        v ≤ quantile vals (3/4) + m * (quantile vals (3/4) - quantile vals (1/4)) := by
  have hsorted : (vals.insertionSort (· ≤ ·)).Sorted (· ≤ ·) :=
    List.sorted_insertionSort _ vals
  have hlen : (vals.insertionSort (· ≤ ·)).length = vals.length :=
    (List.perm_insertionSort _ vals).length_eq
  have h1n : 1 ≤ vals.length := List.length_pos.mpr hne
  have hiqr : 0 ≤ quantile vals (3/4) - quantile vals (1/4) := by
    linarith [quantile_q1_le_q3 vals]
  have hm0 : (0:ℚ) ≤ m := by linarith
  have hb1 := quantile_between vals (q := 1/4) (by norm_num) (by norm_num) hne
  have hidx : (⌈(1/4 : ℚ) * ((vals.length : ℚ) - 1)⌉).toNat
      < (vals.insertionSort (· ≤ ·)).length := by
    rw [hlen]
    exact ceil_index_lt (by norm_num) (by norm_num) hne
  refine ⟨(vals.insertionSort (· ≤ ·)).getD
      (⌈(1/4 : ℚ) * ((vals.length : ℚ) - 1)⌉).toNat 0, ?_, ?_, ?_⟩
  · have hmem : (vals.insertionSort (· ≤ ·)).getD
        (⌈(1/4 : ℚ) * ((vals.length : ℚ) - 1)⌉).toNat 0
          ∈ vals.insertionSort (· ≤ ·) := by
      rw [List.getD_eq_get _ _ hidx]
      exact List.get_mem _ _ _
    exact (List.perm_insertionSort _ vals).subset hmem
  · nlinarith [hb1.2, mul_nonneg hm0 hiqr]
  · by_cases h2 : vals.length = 2
    · obtain ⟨e1, e3⟩ := quantile_quarter_len_two h2
      have hv : (⌈(1/4 : ℚ) * ((vals.length : ℚ) - 1)⌉).toNat = 1 := by
        rw [show ((vals.length : ℚ) - 1) = 1 by rw [h2]; norm_num]
        rw [show ((1:ℚ)/4 * 1) = 1/4 by norm_num]
        decide
      have hab : (vals.insertionSort (· ≤ ·)).getD 0 0
          ≤ (vals.insertionSort (· ≤ ·)).getD 1 0 :=
        sorted_getD_le hsorted (by omega) (by omega)
      rw [hv, e1, e3]
      nlinarith [hab]
    · have hcf := ceil_q1_le_floor_q3 h1n h2
      have hfloor3 : (⌊(3/4 : ℚ) * ((vals.length : ℚ) - 1)⌋).toNat
          < (vals.insertionSort (· ≤ ·)).length := by
        have hc3 : (⌈(3/4 : ℚ) * ((vals.length : ℚ) - 1)⌉).toNat < vals.length :=
          ceil_index_lt (by norm_num) (by norm_num) hne
        have := Int.floor_le_ceil ((3/4 : ℚ) * ((vals.length : ℚ) - 1))
        omega
      have hmid : (vals.insertionSort (· ≤ ·)).getD
          (⌈(1/4 : ℚ) * ((vals.length : ℚ) - 1)⌉).toNat 0
            ≤ (vals.insertionSort (· ≤ ·)).getD
              (⌊(3/4 : ℚ) * ((vals.length : ℚ) - 1)⌋).toNat 0 :=
        sorted_getD_le hsorted (Int.toNat_le_toNat hcf) hfloor3
      have hb3 := quantile_between vals (q := 3/4) (by norm_num) (by norm_num) hne
      nlinarith [hb3.1, mul_nonneg hm0 hiqr]

/-- For any multiplier `m ≥ 1/2` the outlier filter of a non-empty group is
non-empty. -/
theorem remove_outliers_ne_nil {df : List Txn} (hne : df ≠ []) {m : ℚ}
    (hm : 1/2 ≤ m) : remove_outliers_iqr df m ≠ [] := by
  have hvals : df.map (·.price_per_sqft) ≠ [] := by
    simpa using hne
  obtain ⟨v, hv_mem, hlo, hhi⟩ := exists_val_in_band _ hvals hm
  obtain ⟨r, hr_mem, hr_eq⟩ := List.mem_map.mp hv_mem
  apply List.ne_nil_of_mem (a := r)
  rw [mem_remove_outliers_iqr]
  refine ⟨hr_mem, ?_, ?_⟩
  · rw [hr_eq]
    exact hlo
  · rw [hr_eq]
    exact hhi

/-! ### Counting the surviving rolling-window labels -/

theorem isSome_ite {α : Type} {c : Prop} [Decidable c] {x : α} :
    (if c then some x else none).isSome = decide c := by
  by_cases h : c <;> simp [h]

theorem countP_range_interval (n lo hi : ℕ) :
    (List.range n).countP (fun i => decide (lo ≤ i ∧ i < hi))
      = min hi n - min lo n := by
  induction n with
  | zero => simp
  | succ n ih =>
    rw [List.range_succ, List.countP_append, ih]
    by_cases h : lo ≤ n ∧ n < hi
    · rw [List.countP_cons]
      simp only [List.countP_nil, decide_eq_true_eq, h, if_true, and_self]
      omega
    · rw [List.countP_cons]
      simp only [List.countP_nil, decide_eq_true_eq, h, if_false]
      omega

/-- Exactly `n + 1 - w` of the `n` daily rows survive the centred rolling
window of size `w ≥ 1` followed by `dropna`. -/
theorem rollingMeanRows_length (rows : List DailyRow) {w : ℕ} (hw : 1 ≤ w) :
    (rollingMeanRows rows w).length = rows.length + 1 - w := by
  rw [rollingMeanRows, List.length_filterMap_eq_countP]
  rw [List.countP_congr
    (q := fun i => decide (w - 1 - (w - 1) / 2 ≤ i ∧ i < rows.length - (w - 1) / 2)) ?_]
  · rw [countP_range_interval]
    omega
  · intro i _
    rw [isSome_ite]
    simp only [decide_eq_true_eq]
    omega

/-! ### Dates: sortedness and uniqueness -/

theorem dailyRow_date_eq {data : List Txn} {m d : ℚ} {row : DailyRow}
    (h : dailyRow data m d = some row) : row.date = d := by
  rw [dailyRow] at h
  split at h
  · dsimp only at h
    split at h
    · exact congrArg DailyRow.date (Option.some.inj h).symm
    · exact absurd h (by simp)
  · exact absurd h (by simp)

theorem dailyRow_count_pos {data : List Txn} {m d : ℚ} {row : DailyRow}
    (h : dailyRow data m d = some row) : 1 ≤ row.transaction_count := by
  rw [dailyRow] at h
  split at h
  · dsimp only at h
    split at h
    · rename_i hclean
      have := (Option.some.inj h).symm
      subst this
      exact hclean
    · exact absurd h (by simp)
  · exact absurd h (by simp)

theorem unique_dates_sorted (data : List Txn) :
    (unique_dates data).Sorted (· < ·) := by
  have hle : (unique_dates data).Sorted (· ≤ ·) :=
    List.sorted_insertionSort _ _
  have hnodup : (unique_dates data).Nodup :=
    (List.perm_insertionSort _ _).nodup_iff.mpr (List.nodup_dedup _)
  exact hle.lt_of_le hnodup

theorem dailyRows_pairwise (data : List Txn) (m : ℚ) :
    (dailyRows data m).Pairwise (fun a b => a.date < b.date) := by
  rw [dailyRows]
  refine List.Pairwise.filterMap _ ?_ (unique_dates_sorted data)
  intro d d' hdd' b hb b' hb'
  rw [Option.mem_def] at hb hb'
  rw [dailyRow_date_eq hb, dailyRow_date_eq hb']
  exact hdd'

theorem rollingMeanRows_pairwise (rows : List DailyRow) (w : ℕ)
    (hrows : rows.Pairwise (fun a b => a.date < b.date)) :
    (rollingMeanRows rows w).Pairwise (fun a b => a.date < b.date) := by
  rw [rollingMeanRows]
  refine List.Pairwise.filterMap _ ?_ (List.pairwise_lt_range _)
  intro i j hij b hb b' hb'
  rw [Option.mem_def] at hb hb'
  split at hb
  case isFalse => exact absurd hb (by simp)
  case isTrue hci =>
    split at hb'
    case isFalse => exact absurd hb' (by simp)
    case isTrue hcj =>
      have hbi := (Option.some.inj hb).symm
      have hbj := (Option.some.inj hb').symm
      subst hbi
      subst hbj
      have hi : i < rows.length := by omega
      have hj : j < rows.length := by omega
      show (rows.getD i ⟨0, 0, 0⟩).date < (rows.getD j ⟨0, 0, 0⟩).date
      rw [List.getD_eq_get _ _ hi, List.getD_eq_get _ _ hj]
      exact List.pairwise_iff_get.mp hrows ⟨i, hi⟩ ⟨j, hj⟩ hij

/-! ### Shape of the top-level result -/

theorem calculate_price_feed_eq_some {data : List Txn} {w : ℕ} {m : ℚ}
    (h1 : data ≠ []) (h2 : dailyRows data m ≠ []) :
    calculate_price_feed data w m
      = some (rollingMeanRows (dailyRows data m) w) := by
  rw [calculate_price_feed, if_neg (by simp [h1]), if_neg (by simp [h2])]

theorem calculate_price_feed_some_inv {data : List Txn} {w : ℕ} {m : ℚ}
    {out : List OutRow} (h : calculate_price_feed data w m = some out) :
    out = rollingMeanRows (dailyRows data m) w := by
  rw [calculate_price_feed] at h
  split at h
  · exact absurd h (by simp)
  · dsimp only at h
    split at h
    · exact absurd h (by simp)
    · exact (Option.some.inj h).symm

/-! ### Window of size one and per-date contribution -/

theorem filterMap_eq_map_of_forall {α β : Type} {g : α → Option β} {f : α → β} :
    ∀ {l : List α}, (∀ a ∈ l, g a = some (f a)) → l.filterMap g = l.map f
  | [], _ => rfl
  | a :: t, H => by
    rw [List.filterMap_cons, H a (List.mem_cons_self a t), List.map_cons,
      filterMap_eq_map_of_forall fun x hx => H x (List.mem_cons_of_mem a hx)]

/-- With `window = 1` the rolling mean keeps every row and its smoothed
value is the raw value. -/
theorem rollingMeanRows_one (rows : List DailyRow) :
    rollingMeanRows rows 1
      = (List.range rows.length).map (fun i =>
          ⟨(rows.getD i ⟨0, 0, 0⟩).date, (rows.getD i ⟨0, 0, 0⟩).price_per_sqft,
            (rows.getD i ⟨0, 0, 0⟩).transaction_count,
            (rows.getD i ⟨0, 0, 0⟩).price_per_sqft⟩) := by
  rw [rollingMeanRows]
  apply filterMap_eq_map_of_forall
  intro i hi
  rw [List.mem_range] at hi
  rw [if_pos (by omega)]
  have hidx : i + 1 + (1 - 1) / 2 - 1 = i := by omega
  rw [hidx]
  have hdrop : rows.drop i = rows.getD i ⟨0, 0, 0⟩ :: rows.drop (i + 1) := by
    rw [List.drop_eq_getElem_cons hi, List.getD_eq_getElem _ _ hi]
  rw [hdrop]
  simp

theorem dailyRow_isSome_of_mem {data : List Txn} {r : Txn} (hr : r ∈ data)
    {m : ℚ} (hm : 1/2 ≤ m) : ∃ row, dailyRow data m r.date = some row := by
  have hday : r ∈ data.filter (fun x => decide (x.date = r.date)) :=
    List.mem_filter.mpr ⟨hr, by simp⟩
  have hne : data.filter (fun x => decide (x.date = r.date)) ≠ [] :=
    List.ne_nil_of_mem hday
  refine ⟨⟨r.date,
    median ((remove_outliers_iqr
      (data.filter (fun x => decide (x.date = r.date))) m).map (·.price_per_sqft)),
    (remove_outliers_iqr
      (data.filter (fun x => decide (x.date = r.date))) m).length⟩, ?_⟩
  rw [dailyRow, if_pos (List.length_pos.mpr hne)]
  dsimp only
  rw [if_pos (List.length_pos.mpr (remove_outliers_ne_nil hne hm))]

/-- With any multiplier `m ≥ 1/2` every record's date contributes a daily
aggregate row, with at least one surviving transaction. -/
theorem dailyRows_contains_date {data : List Txn} {r : Txn} (hr : r ∈ data)
    {m : ℚ} (hm : 1/2 ≤ m) :
    ∃ row ∈ dailyRows data m,
      row.date = r.date ∧ 1 ≤ row.transaction_count := by
  obtain ⟨row, hrow⟩ := dailyRow_isSome_of_mem hr hm
  have hd_mem : r.date ∈ unique_dates data := by
    rw [unique_dates, (List.perm_insertionSort _ _).mem_iff, List.mem_dedup]
    exact List.mem_map_of_mem _ hr
  exact ⟨row, List.mem_filterMap.mpr ⟨r.date, hd_mem, hrow⟩,
    dailyRow_date_eq hrow, dailyRow_count_pos hrow⟩

theorem unique_dates_single {data : List Txn} {d : ℚ} (hne : data ≠ [])
    (hd : ∀ r ∈ data, r.date = d) : unique_dates data = [d] := by
  rw [unique_dates]
  have hdedup : (data.map (·.date)).dedup = [d] := by
    have hmem : d ∈ (data.map (·.date)).dedup := by
      rw [List.mem_dedup]
      obtain ⟨r, hr⟩ := List.exists_mem_of_ne_nil data hne
      exact hd r hr ▸ List.mem_map_of_mem _ hr
    have hall : ∀ x ∈ (data.map (·.date)).dedup, x = d := by
      intro x hx
      rw [List.mem_dedup] at hx
      obtain ⟨r, hr, hx'⟩ := List.mem_map.mp hx
      rw [← hx']
      exact hd r hr
    have hnodup := List.nodup_dedup (data.map (·.date))
    rcases hlist : (data.map (·.date)).dedup with _ | ⟨a, t⟩
    · rw [hlist] at hmem
      cases hmem
    · rw [hlist] at hall hnodup
      have ha : a = d := hall a (List.mem_cons_self a t)
      have ht : t = [] := by
        rcases t with _ | ⟨b, t'⟩
        · rfl
        · exfalso
          have hb : b = d := hall b (by simp)
          rw [List.nodup_cons] at hnodup
          exact hnodup.1 (by rw [ha, ← hb]; simp)
      rw [hlist, ha, ht]
  rw [hdedup]
  rfl

/-- When every transaction carries the same date value and `m ≥ 1/2`, the
aggregation produces exactly one daily row. -/
theorem dailyRows_single_date {data : List Txn} {d : ℚ} (hne : data ≠ [])
    (hd : ∀ r ∈ data, r.date = d) {m : ℚ} (hm : 1/2 ≤ m) :
    dailyRows data m
      = [⟨d, median ((remove_outliers_iqr data m).map (·.price_per_sqft)),
          (remove_outliers_iqr data m).length⟩] := by
  rw [dailyRows, unique_dates_single hne hd]
  have hfilter : data.filter (fun r => decide (r.date = d)) = data :=
    List.filter_eq_self.mpr fun r hr => by simp [hd r hr]
  have hrow : dailyRow data m d
      = some ⟨d, median ((remove_outliers_iqr data m).map (·.price_per_sqft)),
          (remove_outliers_iqr data m).length⟩ := by
    rw [dailyRow, hfilter, if_pos (List.length_pos.mpr hne)]
    dsimp only
    rw [if_pos (List.length_pos.mpr (remove_outliers_ne_nil hne hm))]
  simp [List.filterMap_cons, hrow]

/-! ### Claims -/

/-- C1 (counterexample): the value `100` is NOT removed from day 4's group
`{8, 9, 100}` — with Q1 = 8.5, Q3 = 54.5, IQR = 46 and multiplier 1.5 the
band is `[-60.5, 123.5]`, which contains 100 — and the day-4 median is
therefore 9, not 8.5. -/
theorem c1_counterexample :
    (100 : ℚ) ∈ (remove_outliers_iqr [⟨4, 8⟩, ⟨4, 100⟩, ⟨4, 9⟩] (3/2)).map
        (·.price_per_sqft) ∧
      median ((remove_outliers_iqr [⟨4, 8⟩, ⟨4, 100⟩, ⟨4, 9⟩] (3/2)).map
        (·.price_per_sqft)) = 9 := by
  decide

/-- C1 (amended): on Scenario A with `window = 3` and `multiplier = 1.5`
no value is filtered out (in particular 100 survives), the raw medians are
`[10, 20, 12, 9, 15]`, and the output is exactly the three middle rows
with smoothed values `mean(10,20,12) = 14`, `mean(20,12,9) = 41/3` and
`mean(12,9,15) = 12`; days 1 and 5 are trimmed. -/
theorem c1_amended :
    calculate_price_feed scenarioA 3 (3/2)
      = some [⟨2, 14, 1, 20⟩, ⟨3, 41/3, 3, 12⟩, ⟨4, 12, 3, 9⟩] := by
  decide

/-- C2 (counterexample): on the empty record set the pipeline does not
return an empty sequence — `df.sort_values('date')` raises `KeyError`
(modelled as `none`). -/
theorem c2_counterexample : calculate_price_feed [] 3 (3/2) = none := by
  decide

/-- C2 (amended): for every non-empty input and positive window the
pipeline returns a (possibly empty) sequence without raising, provided
either the multiplier is at least `1/2` (the whole exposed range 0.5–3.0)
or at least one date group survives filtering. -/
theorem c2_amended (data : List Txn) (w : ℕ) (m : ℚ) (hw : 1 ≤ w)
    (hne : data ≠ []) (hm : 1/2 ≤ m ∨ dailyRows data m ≠ []) :
    ∃ out, calculate_price_feed data w m = some out := by
  have hrows : dailyRows data m ≠ [] := by
    rcases hm with hm | hm
    · obtain ⟨r, hr⟩ := List.exists_mem_of_ne_nil data hne
      obtain ⟨row, hrow, -⟩ := dailyRows_contains_date hr hm
      exact List.ne_nil_of_mem hrow
    · exact hm
  exact ⟨_, calculate_price_feed_eq_some hne hrows⟩

/-- C2 (witness): the amended theorem at a concrete input. -/
theorem c2_witness : ∃ out, calculate_price_feed [⟨0, 10⟩] 1 (3/2) = some out :=
  c2_amended [⟨0, 10⟩] 1 (3/2) (by norm_num) (by decide) (Or.inl (by norm_num))

/-- C3 (counterexample): two records one hour apart on the same calendar
day land in different groups (grouping is by exact timestamp, not by
calendar day), producing two output rows for one calendar day. -/
theorem c3_counterexample :
    calendarDay 3600 = calendarDay 7200 ∧
      calculate_price_feed [⟨3600, 10⟩, ⟨7200, 20⟩] 1 (3/2)
        = some [⟨3600, 10, 1, 10⟩, ⟨7200, 20, 1, 20⟩] := by
  decide

/-- C3 (amended): the aggregator partitions records by exact `date` value
(`df[df['date'] == date]`), so at most one aggregate row is produced per
distinct timestamp; timestamps on the same calendar day that differ in
finer precision form distinct groups and can yield several rows for that
calendar day. -/
theorem c3_amended (data : List Txn) (m : ℚ) :
    ((dailyRows data m).map DailyRow.date).Nodup :=
  (List.pairwise_map.mpr (dailyRows_pairwise data m)).imp ne_of_lt

/-- C4 (counterexample): when zero dates survive filtering (`N = 0 < w`),
the claim promises an empty output sequence, but the code raises
`KeyError` instead (modelled as `none`). -/
theorem c4_counterexample :
    dailyRows [⟨0, 1⟩, ⟨0, 2⟩] 0 = [] ∧
      calculate_price_feed [⟨0, 1⟩, ⟨0, 2⟩] 3 0 = none := by
  decide

/-- C4 (amended): whenever the pipeline returns (in particular whenever
`N ≥ 1` surviving daily rows exist), the output has exactly
`N + 1 - w` rows (natural subtraction): `N - (w - 1)` rows when `N ≥ w`
and none when `N < w`; when `N = 0` the code raises instead of returning
the promised empty sequence. -/
theorem c4_amended (data : List Txn) (w : ℕ) (m : ℚ) (out : List OutRow)
    (hw : 1 ≤ w) (hout : calculate_price_feed data w m = some out) :
    out.length = (dailyRows data m).length + 1 - w := by
  rw [calculate_price_feed_some_inv hout]
  exact rollingMeanRows_length _ hw

/-- C4 (witness): the amended theorem at a concrete input. -/
theorem c4_witness :
    ([⟨1, 10, 1, 10⟩, ⟨2, 20, 1, 20⟩] : List OutRow).length
      = (dailyRows [⟨1, 10⟩, ⟨2, 20⟩] (3/2)).length + 1 - 1 :=
  c4_amended [⟨1, 10⟩, ⟨2, 20⟩] 1 (3/2) _ (by norm_num) (by decide)

/-- C5: the outlier filter returns exactly the records whose
`price_per_sqft` lies in `[Q1 - m·IQR, Q3 + m·IQR]`, both ends inclusive,
where Q1 and Q3 are the 25th and 75th percentiles of the field over the
whole input computed by linear interpolation between order statistics
(`quantile`). -/
theorem c5_filter_band (df : List Txn) (m : ℚ) (hm : 0 ≤ m) (hne : df ≠ [])
    (r : Txn) :
    r ∈ remove_outliers_iqr df m ↔
      r ∈ df ∧
        quantile (df.map (·.price_per_sqft)) (1/4)
            - m * (quantile (df.map (·.price_per_sqft)) (3/4)
                - quantile (df.map (·.price_per_sqft)) (1/4))
          ≤ r.price_per_sqft ∧
        r.price_per_sqft
          ≤ quantile (df.map (·.price_per_sqft)) (3/4)
            + m * (quantile (df.map (·.price_per_sqft)) (3/4)
                - quantile (df.map (·.price_per_sqft)) (1/4)) :=
  mem_remove_outliers_iqr

/-- C5 (witness): the filter-band characterisation at a concrete input. -/
theorem c5_witness :
    (⟨0, 10⟩ : Txn) ∈ remove_outliers_iqr [⟨0, 10⟩] 1 ↔
      (⟨0, 10⟩ : Txn) ∈ [(⟨0, 10⟩ : Txn)] ∧
        quantile ([(⟨0, 10⟩ : Txn)].map (·.price_per_sqft)) (1/4)
            - 1 * (quantile ([(⟨0, 10⟩ : Txn)].map (·.price_per_sqft)) (3/4)
                - quantile ([(⟨0, 10⟩ : Txn)].map (·.price_per_sqft)) (1/4))
          ≤ (⟨0, 10⟩ : Txn).price_per_sqft ∧
        (⟨0, 10⟩ : Txn).price_per_sqft
          ≤ quantile ([(⟨0, 10⟩ : Txn)].map (·.price_per_sqft)) (3/4)
            + 1 * (quantile ([(⟨0, 10⟩ : Txn)].map (·.price_per_sqft)) (3/4)
                - quantile ([(⟨0, 10⟩ : Txn)].map (·.price_per_sqft)) (1/4)) :=
  c5_filter_band [⟨0, 10⟩] 1 (by norm_num) (by decide) ⟨0, 10⟩

/-- C6: the outlier filter is monotone in the multiplier — for
`m1 ≤ m2` every record kept at `m1` is kept at `m2` — and whenever the
band covers every value of the input (in particular for any multiplier
large enough that the bounds exceed the data range) the filter returns the
full input unchanged. -/
theorem c6_monotone (df : List Txn) (m1 m2 : ℚ) (h12 : m1 ≤ m2) :
    (∀ r ∈ remove_outliers_iqr df m1, r ∈ remove_outliers_iqr df m2) ∧
      ∀ m : ℚ,
        (∀ r ∈ df,
            quantile (df.map (·.price_per_sqft)) (1/4)
                - m * (quantile (df.map (·.price_per_sqft)) (3/4)
                    - quantile (df.map (·.price_per_sqft)) (1/4))
              ≤ r.price_per_sqft ∧
            r.price_per_sqft
              ≤ quantile (df.map (·.price_per_sqft)) (3/4)
                + m * (quantile (df.map (·.price_per_sqft)) (3/4)
                    - quantile (df.map (·.price_per_sqft)) (1/4))) →
          remove_outliers_iqr df m = df := by
  constructor
  · intro r hr
    rw [mem_remove_outliers_iqr] at hr ⊢
    obtain ⟨hmem, hlo, hhi⟩ := hr
    have hiqr : (0:ℚ) ≤ quantile (df.map (·.price_per_sqft)) (3/4)
        - quantile (df.map (·.price_per_sqft)) (1/4) := by
      linarith [quantile_q1_le_q3 (df.map (·.price_per_sqft))]
    have hmul : m1 * (quantile (df.map (·.price_per_sqft)) (3/4)
          - quantile (df.map (·.price_per_sqft)) (1/4))
        ≤ m2 * (quantile (df.map (·.price_per_sqft)) (3/4)
          - quantile (df.map (·.price_per_sqft)) (1/4)) :=
      mul_le_mul_of_nonneg_right h12 hiqr
    exact ⟨hmem, by linarith, by linarith⟩
  · intro m hall
    apply List.filter_eq_self.mpr
    intro r hr
    simp only [Bool.and_eq_true, decide_eq_true_eq]
    exact hall r hr

/-- C6 (witness): monotonicity applied at a concrete input. -/
theorem c6_witness : (⟨0, 10⟩ : Txn) ∈ remove_outliers_iqr [⟨0, 10⟩] 2 :=
  (c6_monotone [⟨0, 10⟩] 1 2 (by norm_num)).1 ⟨0, 10⟩ (by decide)

/-- C7: on degenerate inputs the outlier filter does not fail — the empty
record set maps to the empty set, and a single record is returned
unchanged for any multiplier `m ≥ 0`, with `Q1 = Q3 =` the single value
and `IQR = 0`. -/
theorem c7_degenerate (m : ℚ) (hm : 0 ≤ m) (r : Txn) :
    remove_outliers_iqr [] m = [] ∧
      quantile [r.price_per_sqft] (1/4) = r.price_per_sqft ∧
      quantile [r.price_per_sqft] (3/4) = r.price_per_sqft ∧
      remove_outliers_iqr [r] m = [r] := by
  have hq : ∀ q : ℚ, quantile [r.price_per_sqft] q = r.price_per_sqft := by
    intro q
    rw [quantile]
    rw [show List.insertionSort (· ≤ ·) [r.price_per_sqft] = [r.price_per_sqft]
        from rfl,
      show ((([r.price_per_sqft] : List ℚ).length : ℚ) - 1) = 0 by norm_num,
      mul_zero, Int.floor_zero, Int.ceil_zero, Int.toNat_zero]
    simp only [List.getD_cons_zero, Int.cast_zero, sub_self, sub_zero, zero_mul,
      mul_zero, add_zero]
  refine ⟨rfl, hq _, hq _, ?_⟩
  apply List.filter_eq_self.mpr
  intro x hx
  rw [List.mem_singleton] at hx
  subst hx
  simp only [Bool.and_eq_true, decide_eq_true_eq]
  have h1 := hq (1/4)
  have h3 := hq (3/4)
  simp only [List.map_cons, List.map_nil] at h1 h3 ⊢
  rw [h1, h3]
  constructor
  · simp only [sub_self, mul_zero, sub_zero, le_refl]
  · simp only [sub_self, mul_zero, add_zero, le_refl]

/-- C7 (witness): the degenerate cases at a concrete record. -/
theorem c7_witness : remove_outliers_iqr [(⟨0, 5⟩ : Txn)] 1 = [(⟨0, 5⟩ : Txn)] :=
  (c7_degenerate 1 (by norm_num) ⟨0, 5⟩).2.2.2

/-- C8 (counterexample): all transactions on a single date with
`window = 2` — the claim promises an empty output sequence, but with
multiplier 0 the lone date group `{1, 2}` is filtered to empty and the
code raises `KeyError` (modelled as `none`) instead. -/
theorem c8_counterexample : calculate_price_feed [⟨0, 1⟩, ⟨0, 2⟩] 2 0 = none := by
  decide

/-- C8 (amended): with `window = 1` smoothing is the identity — every
returned row has `smoothed = raw` and no rows are trimmed; when all
transactions carry one date value and the date group survives filtering
(guaranteed for any multiplier `m ≥ 1/2`), `window = 1` returns exactly
that single day's row and any `window ≥ 2` returns the empty sequence;
when the group is filtered to empty the pipeline raises instead. -/
theorem c8_amended :
    (∀ (data : List Txn) (m : ℚ) (out : List OutRow),
        calculate_price_feed data 1 m = some out →
          out.length = (dailyRows data m).length ∧
            ∀ row ∈ out, row.price_per_sqft = row.price_per_sqft_raw) ∧
      ∀ (data : List Txn) (d m : ℚ), data ≠ [] → (∀ r ∈ data, r.date = d) →
        1/2 ≤ m →
        (∃ row : OutRow, calculate_price_feed data 1 m = some [row] ∧
            row.date = d ∧ row.price_per_sqft = row.price_per_sqft_raw) ∧
          ∀ w : ℕ, 2 ≤ w → calculate_price_feed data w m = some [] := by
  constructor
  · intro data m out hout
    rw [calculate_price_feed_some_inv hout, rollingMeanRows_one]
    constructor
    · rw [List.length_map, List.length_range]
    · intro row hrow
      obtain ⟨i, -, hrow⟩ := List.mem_map.mp hrow
      rw [← hrow]
  · intro data d m hne hd hm
    have hrows := dailyRows_single_date hne hd hm
    have hrne : dailyRows data m ≠ [] := by
      rw [hrows]
      exact List.cons_ne_nil _ _
    constructor
    · refine ⟨⟨d, median ((remove_outliers_iqr data m).map (·.price_per_sqft)),
        (remove_outliers_iqr data m).length,
        median ((remove_outliers_iqr data m).map (·.price_per_sqft))⟩,
        ?_, rfl, rfl⟩
      rw [calculate_price_feed_eq_some hne hrne, hrows, rollingMeanRows_one]
      rfl
    · intro w hw
      rw [calculate_price_feed_eq_some hne hrne, hrows]
      have hlen : (rollingMeanRows
          [⟨d, median ((remove_outliers_iqr data m).map (·.price_per_sqft)),
            (remove_outliers_iqr data m).length⟩] w).length = 0 := by
        rw [rollingMeanRows_length _ (by omega : 1 ≤ w)]
        simp only [List.length_cons, List.length_nil]
        omega
      rw [List.length_eq_zero.mp hlen]

/-- C8 (witness): the amended theorem at a concrete single-date input. -/
theorem c8_witness : calculate_price_feed [(⟨0, 10⟩ : Txn)] 2 1 = some [] :=
  ((c8_amended.2 [⟨0, 10⟩] 0 1 (by decide) (by decide) (by norm_num)).2) 2
    (by norm_num)

/-- C9 (counterexample): two output rows can share a calendar date — the
timestamps 60 and 120 both fall on calendar day 0, yet each produces its
own row. -/
theorem c9_counterexample :
    calendarDay 60 = calendarDay 120 ∧
      calculate_price_feed [⟨60, 5⟩, ⟨120, 7⟩] 1 (3/2)
        = some [⟨60, 5, 1, 5⟩, ⟨120, 7, 1, 7⟩] := by
  decide

/-- C9 (amended): the output sequence contains at most one row per
distinct `date` value (timestamp) and its rows are strictly ascending by
that timestamp; rows on the same calendar day remain possible. -/
theorem c9_amended (data : List Txn) (w : ℕ) (m : ℚ) (out : List OutRow)
    (hout : calculate_price_feed data w m = some out) :
    (out.map OutRow.date).Sorted (· < ·) := by
  rw [calculate_price_feed_some_inv hout]
  exact List.pairwise_map.mpr
    (rollingMeanRows_pairwise (dailyRows data m) w (dailyRows_pairwise data m))

/-- C9 (witness): the amended theorem at a concrete input. -/
theorem c9_witness :
    (([⟨1, 10, 1, 10⟩, ⟨2, 20, 1, 20⟩] : List OutRow).map OutRow.date).Sorted
      (· < ·) :=
  c9_amended [⟨1, 10⟩, ⟨2, 20⟩] 1 (3/2) [⟨1, 10, 1, 10⟩, ⟨2, 20, 1, 20⟩]
    (by decide)

/-- C10 (counterexample): a non-empty date group whose filtered output is
empty — for the group `{1, 2}` with multiplier 0 the band is
`[5/4, 7/4]`, which contains no input value, so the filter returns `[]`
and the date is dropped: the empty-group branch IS reachable. -/
theorem c10_counterexample :
    remove_outliers_iqr [⟨0, 1⟩, ⟨0, 2⟩] 0 = [] ∧
      dailyRows [⟨0, 1⟩, ⟨0, 2⟩] 0 = [] := by
  decide

/-- C10 (amended): a value in `[Q1, Q3]` need not exist in the input
(two-element groups have none), so for small multipliers the filter can
empty a group; but for every multiplier `m ≥ 1/2` — in particular
throughout the exposed range 0.5–3.0 — the filter of a non-empty group is
non-empty, so every date present in the input contributes a daily
aggregate row with `transaction_count ≥ 1` and the drop branch is never
taken. -/
theorem c10_amended :
    (∀ (df : List Txn) (m : ℚ), 1/2 ≤ m → df ≠ [] →
        remove_outliers_iqr df m ≠ []) ∧
      ∀ (data : List Txn) (m : ℚ) (r : Txn), 1/2 ≤ m → r ∈ data →
        ∃ row ∈ dailyRows data m,
          row.date = r.date ∧ 1 ≤ row.transaction_count :=
  ⟨fun _ _ hm hne => remove_outliers_ne_nil hne hm,
    fun _ _ _ hm hr => dailyRows_contains_date hr hm⟩

/-- C10 (witness): the amended theorem at a concrete two-element group. -/
theorem c10_witness : remove_outliers_iqr [⟨0, 1⟩, ⟨0, 2⟩] 1 ≠ [] :=
  c10_amended.1 [⟨0, 1⟩, ⟨0, 2⟩] 1 (by norm_num) (by decide)
